import Mathlib

/-!
# Verification of the `grt` Go Redis toolbox (lock.go)

Shallow embedding of the two components of the repository:

* the Redis-based `Lock` (`Lock`, `LockWait`, `heartbeat`, `Unlock`), and
* the Redis-based `JobQueue` (`Submit`, `IsQueued`, `Get`, `Cleanup`,
  `Work.Complete`, `Work.Resubmit`, `jobQueueMarshal`).

Redis byte strings are modelled as Lean `String`s; the `:payload` hash is an
association list; the waiting and processing lists are Lean lists whose head
is the Redis list's left end (so `LPUSH` is `List.cons`, `RPOPLPUSH` pops
`getLast` and conses it onto the destination).  Every `MULTI`/`EXEC` batch in
the source is one atomic state transformation here, and every single Redis
command is likewise one step, exactly mirroring the granularity of the code.
-/

namespace Grt

/-! ## Redis hash primitives (the `queue:payload` hash)

`HSET`, `HDEL`, `HEXISTS`, `HGET` on an association list keyed by the job's
dedup key. -/

/-- The `queue:payload` Redis hash: dedup key ↦ stored payload. -/
abbrev RHash : Type := List (String × String)

/-- `HSET h k v`: set field `k` to `v` (overwriting any previous binding). -/
def hset (h : RHash) (k v : String) : RHash :=
  (k, v) :: h.filter (fun kv => kv.1 ≠ k)

/-- `HDEL h k`: remove field `k`. -/
def hdel (h : RHash) (k : String) : RHash :=
  h.filter (fun kv => kv.1 ≠ k)

/-- `HEXISTS h k`: does field `k` exist? -/
def hexists (h : RHash) (k : String) : Bool :=
  h.any (fun kv => kv.1 = k)

/-- `HGET h k`: the value stored at field `k`, if any (a missing field is a
nil reply, which `redis.Bytes` turns into an error in the caller). -/
def hget (h : RHash) (k : String) : Option String :=
  (h.find? (fun kv => kv.1 = k)).map Prod.snd

/-- `LREM list 0 k`: remove all occurrences of `k` from a Redis list. -/
def lrem (l : List String) (k : String) : List String :=
  l.filter (fun x => x ≠ k)

/-! ## Job marshaling (`jobQueueMarshal`, lock.go lines 345-362)

A Go `job interface{}` is abstracted by what the code observes of it: the
result of `json.Marshal(job)` and, when the dynamic type implements
`JobQueueKeyer`, the bytes returned by `JobQueueKey()`. -/

/-- Abstraction of a Go job value as seen by `jobQueueMarshal`:
`serialized` is the result of `json.Marshal(job)` (which can fail), and
`customKey` is `some bytes` exactly when the job's type implements the
`JobQueueKeyer` interface, in which case `JobQueueKey()` returns `bytes`. -/
structure Job where
  serialized : Except String String
  customKey : Option String
  deriving Repr

/-- `jobQueueRawMarshal`: just `json.Marshal`. -/
def jobQueueRawMarshal (job : Job) : Except String String :=
  job.serialized

/-- `jobQueueMarshal` (lock.go lines 353-362), transcribed exactly: marshal
the job, set `key := payload`, and then, if the job implements
`JobQueueKeyer`, overwrite `payload` (not `key`) with `JobQueueKey()`.
Returns `(key, payload)`. -/
def jobQueueMarshal (job : Job) : Except String (String × String) :=
  match jobQueueRawMarshal job with
  | .error e => .error e
  | .ok bytes =>
    let key := bytes
    let payload :=
      match job.customKey with
      | some ck => ck
      | none => bytes
    .ok (key, payload)

/-! ## Queue state and the `IsQueued` / `Submit` code paths

`QState` is the store-resident state of one queue: the waiting list (the
Redis list named `Queue`), the processing list (`Queue:processing`) and the
`Queue:payload` hash serving as dedup index and payload store. -/

/-- Store-resident state of one job queue. Head of each list is the Redis
left end: `LPUSH` conses, `BRPOPLPUSH`/`RPOPLPUSH` pop `getLast`. -/
structure QState where
  waiting : List String
  processing : List String
  index : RHash
  deriving DecidableEq

/-- The empty queue. -/
def QState.empty : QState := ⟨[], [], []⟩

/-- `IsQueued` on the store state (lock.go line 266): `HEXISTS Queue:payload
key`. -/
def isQueuedState (s : QState) (k : String) : Bool :=
  hexists s.index k

/-- Result of the store-level `HEXISTS` round trip inside `IsQueued`: either
a reply or a connection/store error. -/
inductive HexistsReply where
  | reply (b : Bool)
  | storeErr (e : String)
  deriving DecidableEq, Repr

/-- `JobQueue.IsQueued` (lock.go lines 259-271): marshal the job (an error is
returned as that error), then `HEXISTS` (a store error is returned as that
error), else report whether the reply was nonzero. -/
def isQueuedGo (job : Job) (hx : HexistsReply) : Except String Bool :=
  match jobQueueMarshal job with
  | .error e => .error e
  | .ok _ =>
    match hx with
    | .storeErr e => .error e
    | .reply b => .ok b

/-- Outcome of `JobQueue.Submit` as the caller sees it, together with whether
the `MULTI`/`EXEC` mutation batch was issued at all. -/
inductive SubmitOutcome where
  | ok
  | alreadyQueued
  | execErr (e : String)
  deriving DecidableEq, Repr

/-- `JobQueue.Submit` (lock.go lines 274-287), transcribed exactly.  The
marshal error is computed and then shadowed; the guard is
`if queued, err := c.IsQueued(job); err != nil || queued
 { return ErrAlreadyQueued }`, so BOTH a store/marshal error and a true
reply produce `ErrAlreadyQueued` with no mutation.  Otherwise the batch
`MULTI; LPUSH Queue key; HSET Queue:payload key payload; EXEC` runs
atomically (`execErr` models a failing `EXEC`).  Returns the outcome, the
new state, and whether any mutation was issued. -/
def submitGo (s : QState) (job : Job) (hx : HexistsReply)
    (execFail : Option String) : SubmitOutcome × QState × Bool :=
  match isQueuedGo job hx with
  | .error _ => (.alreadyQueued, s, false)
  | .ok true => (.alreadyQueued, s, false)
  | .ok false =>
    match jobQueueMarshal job with
    | .error _ =>
      -- unreachable when `hx` is the reply for this very job: `isQueuedGo`
      -- already fails on a marshal error; kept for exactness
      (.alreadyQueued, s, false)
    | .ok (key, payload) =>
      match execFail with
      | some e => (.execErr e, s, true)
      | none =>
        (.ok, { s with waiting := key :: s.waiting,
                       index := hset s.index key payload }, true)

/-! ## `Work.Complete`, `Work.Resubmit` (lock.go lines 324-343)

Each is one `MULTI`/`EXEC` batch, hence one atomic state transformation. -/

/-- `Work.Complete` (lock.go lines 324-332): atomically
`LREM Queue:processing 0 key; HDEL Queue:payload key`. -/
def workComplete (s : QState) (k : String) : QState :=
  { s with processing := lrem s.processing k, index := hdel s.index k }

/-- `Work.Resubmit` (lock.go lines 335-343): atomically
`LREM Queue:processing 0 key; LPUSH Queue key`.  The `Queue:payload` hash is
not touched. -/
def workResubmit (s : QState) (k : String) : QState :=
  { s with processing := lrem s.processing k, waiting := k :: s.waiting }

/-! ## `JobQueue.Get` (lock.go lines 290-309) -/

/-- What `JobQueue.Get` hands back: a work handle for the popped key, a
deserialization/lookup error after the internal resubmit, a died-by-`panic`
outcome when that internal resubmit itself failed, or a store error from the
blocking pop itself. -/
inductive GetOutcome where
  | gotWork (key : String)
  | deserErr (e : String)
  | fatalPanicked (msg : String)
  | popErr (e : String)
  | blocked
  deriving DecidableEq, Repr

/-- `JobQueue.Get` (lock.go lines 290-309), transcribed exactly.
`BRPOPLPUSH Queue Queue:processing 0` atomically moves the tail of waiting
to the head of processing (blocking forever when waiting is empty, modelled
by `blocked`); then `HGET Queue:payload key` (a nil reply becomes an error
via `redis.Bytes`), then `jobQueueUnmarshal` (`json.Unmarshal`, abstracted
by the `unmarshal` parameter).  On any of those two errors the queue calls
`work.Resubmit()` itself and returns the error; if that resubmit fails
(modelled by `resubmitFail`), the code `panic`s. -/
def getGo (s : QState) (unmarshal : String → Except String Unit)
    (resubmitFail : Option String) : QState × GetOutcome :=
  match s.waiting.getLast? with
  | none => (s, .blocked)
  | some k =>
    let s1 : QState :=
      { s with waiting := s.waiting.dropLast, processing := k :: s.processing }
    let payloadErr : Option String :=
      match hget s1.index k with
      | none => some "redigo: nil returned"
      | some d =>
        match unmarshal d with
        | .error e => some e
        | .ok _ => none
    match payloadErr with
    | none => (s1, .gotWork k)
    | some e =>
      match resubmitFail with
      | some re => (s1, .fatalPanicked ("could not resubmit job: " ++ re))
      | none => (workResubmit s1 k, .deserErr e)

/-! ## `JobQueue.Cleanup` (lock.go lines 228-245)

A loop of single `RPOPLPUSH Queue:processing Queue` commands, each one
atomic, until a nil reply. -/

/-- One `RPOPLPUSH Queue:processing Queue`: atomically move the tail of the
processing list to the head of the waiting list; nil reply (`none`) when the
processing list is empty. -/
def rpoplpushStep (s : QState) : Option QState :=
  match s.processing.getLast? with
  | none => none
  | some k =>
    some { s with waiting := k :: s.waiting,
                  processing := s.processing.dropLast }

/-- `JobQueue.Cleanup` (lock.go lines 228-245): repeat `rpoplpushStep` until
it returns a nil reply; the loop terminates because each step shortens the
processing list. -/
def cleanupGo (s : QState) : QState :=
  match h : s.processing.getLast? with
  | none => s
  | some k =>
    cleanupGo { s with waiting := k :: s.waiting,
                       processing := s.processing.dropLast }
  termination_by s.processing.length
  decreasing_by
    simp only [List.length_dropLast]
    have hne : s.processing ≠ [] := by
      intro hnil
      rw [hnil] at h
      simp at h
    have : 0 < s.processing.length := List.length_pos.mpr hne
    omega

/-! ## The Redis lock: `LockWait` (lock.go lines 46-71)

One acquisition attempt is the atomic command
`SET key 1 NX PX expiry`, whose reply is non-nil (`acquired`) when the key
was absent and was created, nil (`heldByOther`) when the key already exists,
or a store error.  Time is in milliseconds (`Nat`); `time.Sleep(l.Expiry)`
advances the clock by `expiry`. -/

/-- Reply of one `SET key 1 NX PX expiry` attempt inside `LockWait`. -/
inductive NxReply where
  | acquired
  | heldByOther
  | storeErr (e : String)
  deriving DecidableEq, Repr

/-- What `LockWait` returned. `diverged` marks a run whose modelled reply
trace was exhausted before the loop exited (the real loop would still be
running). -/
inductive LockOutcome where
  | ok
  | timeout
  | storeErr (e : String)
  | diverged
  deriving DecidableEq, Repr

/-- Result of a `LockWait` run: the outcome, whether the local
`sync.Mutex` guard is still held on return (`true` exactly on success, when
the heartbeat is started and `Unlock` is expected to release it), and the
times at which the `SET NX` attempts were issued. -/
structure LockWaitResult where
  outcome : LockOutcome
  guardHeld : Bool
  attemptTimes : List Nat
  deriving DecidableEq, Repr

/-- The loop of `Lock.LockWait` (lock.go lines 51-66), transcribed exactly:
issue `SET key 1 NX PX expiry`; a store error returns it with the guard
released; a non-nil reply breaks the loop (guard kept, heartbeat started);
a nil reply sleeps one full `expiry` and then, if `time.Now().After(expire)`
(strictly past the deadline), releases the guard and returns
`ErrLockTimeout`, else retries.  `resps` is the trace of store replies, one
per attempt; `t` is the current time. -/
def lockWaitLoop (expiry deadline : Nat) :
    List NxReply → Nat → LockWaitResult
  | [], _ => ⟨.diverged, true, []⟩
  | r :: rest, t =>
    match r with
    | .storeErr e => ⟨.storeErr e, false, [t]⟩
    | .acquired => ⟨.ok, true, [t]⟩
    | .heldByOther =>
      if deadline < t + expiry then ⟨.timeout, false, [t]⟩
      else
        let res := lockWaitLoop expiry deadline rest (t + expiry)
        ⟨res.outcome, res.guardHeld, t :: res.attemptTimes⟩

/-- `Lock.LockWait wait` started at time `t0`: the guard is taken, the
deadline is `t0 + wait` (`expire := time.Now().Add(wait)`), and the loop
runs. -/
def lockWait (expiry wait : Nat) (resps : List NxReply) (t0 : Nat) :
    LockWaitResult :=
  lockWaitLoop expiry (t0 + wait) resps t0

/-! ## The heartbeat task (lock.go lines 73-91) -/

/-- Reply of the renewal command `SET key 1 XX PX expiry`: `ok` when the key
existed and was refreshed, `nilReply` when the key did not exist (Redis
returns a nil bulk reply, which redigo reports with a nil error), or a store
error. -/
inductive XxReply where
  | ok
  | nilReply
  | storeErr (e : String)
  deriving DecidableEq, Repr

/-- What one heartbeat iteration does after its renewal command returns:
whether the goroutine stops (`return`), and the value it sends on the
one-slot `errors` channel, if any. -/
structure HeartbeatTick where
  stops : Bool
  signalled : Option String
  deriving DecidableEq, Repr

/-- One iteration of `Lock.heartbeat` (lock.go lines 76-82), transcribed
exactly: only a non-nil `err` from the `SET XX` command makes the task send
on `l.errors` and return; both `ok` and a nil reply (key expired and
deleted) fall through to the `select` and keep the task running. -/
def heartbeatTick : XxReply → HeartbeatTick
  | .storeErr e => ⟨true, some e⟩
  | .ok => ⟨false, none⟩
  | .nilReply => ⟨false, none⟩

/-- The heartbeat ticker period (lock.go line 74): `time.Tick(l.Expiry / 4)`. -/
def heartbeatPeriod (expiry : Nat) : Nat :=
  expiry / 4

/-- The TTL argument of both lock `SET` commands (lock.go lines 52 and 77):
`l.Expiry.Nanoseconds() / 1000000`, i.e. the expiry in milliseconds. -/
def lockTTLMillis (expiryNanos : Nat) : Nat :=
  expiryNanos / 1000000

/-! ## Interleaving model of concurrent lock acquisition (C1)

Several processes run `Lock`/`LockWait`/`Unlock` against the same key.  The
store executes each `SET key 1 NX PX ttl` atomically, so the only shared
state is the lock key itself: `owner` records the key's presence (and, as
ghost information, which process's `SET NX` created it).  `holders` is the
set of processes currently observing a successful acquisition — a process
enters it when its `SET NX` returns non-nil (lock.go line 57) and leaves it
when it calls `Unlock` or when the store's TTL expires its lease.  `Unlock`
(lock.go lines 94-98) does NOT delete the key; only TTL expiry removes it. -/

/-- Store + ghost state for concurrent acquisitions of one lock key:
`owner = some p` means the key exists and was created by `p`'s `SET NX`;
`holders` are the processes currently observing a successful, unreleased,
unexpired acquisition. -/
structure LockSys where
  owner : Option Nat
  holders : List Nat
  deriving DecidableEq, Repr

/-- Initial state: no key, no holder. -/
def LockSys.init : LockSys := ⟨none, []⟩

/-- One atomic event in the interleaved execution of any number of
processes running the lock protocol against one key. -/
inductive LockStep : LockSys → LockSys → Prop where
  /-- `SET key 1 NX` by process `p` when the key is absent: the key is
  created and `p`'s `LockWait` breaks out of its loop with success. -/
  | acquire (s : LockSys) (p : Nat) (h : s.owner = none) :
      LockStep s ⟨some p, p :: s.holders⟩
  /-- `SET key 1 NX` by `p` when the key exists: nil reply, `p` keeps
  looping (no state change worth recording). -/
  | acquireFail (s : LockSys) (q : Nat) (h : s.owner = some q) :
      LockStep s s
  /-- The heartbeat of the creating process refreshes the TTL
  (`SET key 1 XX`): the key stays. -/
  | renew (s : LockSys) (q : Nat) (h : s.owner = some q) :
      LockStep s s
  /-- `Unlock` by a holder `p`: stops the heartbeat, does not delete the
  key; `p` no longer observes the acquisition. -/
  | unlock (s : LockSys) (p : Nat) (h : p ∈ s.holders) :
      LockStep s ⟨s.owner, s.holders.erase p⟩
  /-- The store's TTL expires the key: the key disappears, and the lease
  of the process whose `SET NX` created it (if it still observed the
  acquisition) is lost. -/
  | expire (s : LockSys) (q : Nat) (h : s.owner = some q) :
      LockStep s ⟨none, s.holders.erase q⟩

/-- Reachability from the initial lock state. -/
inductive LockReach : LockSys → Prop where
  | init : LockReach LockSys.init
  | step {s s' : LockSys} : LockReach s → LockStep s s' → LockReach s'

/-! ## Interleaving model of queue operation sequences (C2)

All sequences of `Submit`/`Get`/`Complete`/`Resubmit`.  Each operation's
`MULTI`/`EXEC` batch (and `BRPOPLPUSH`) is a single atomic step, exactly as
issued by the code.  `handles` is the multiset of keys of outstanding `Work`
handles returned by `Get`; `Complete`/`Resubmit` may only be invoked through
such a handle, and exactly one of them consumes it (the documented contract
of `Work`, lock.go lines 311-312). -/

/-- Queue store state plus the outstanding `Work` handles. -/
structure QSys where
  state : QState
  handles : List String
  deriving DecidableEq

/-- Initial queue system: empty store, no handles. -/
def QSys.init : QSys := ⟨QState.empty, []⟩

/-- One atomic queue operation, as issued by `Submit` (lines 282-285),
`Get` (line 293), `Complete` (lines 327-330) and `Resubmit`
(lines 338-341). -/
inductive QStep : QSys → QSys → Prop where
  /-- `Submit` whose `IsQueued` check reported false: atomically
  `LPUSH Queue k; HSET Queue:payload k p`. -/
  | submit (s : QSys) (k p : String) (h : isQueuedState s.state k = false) :
      QStep s ⟨{ s.state with waiting := k :: s.state.waiting,
                              index := hset s.state.index k p }, s.handles⟩
  /-- `Submit` rejected by the `IsQueued` check: `ErrAlreadyQueued`, no
  mutation. -/
  | submitDup (s : QSys) (k : String) (h : isQueuedState s.state k = true) :
      QStep s s
  /-- `Get`: `BRPOPLPUSH` moves the tail of waiting to the head of
  processing and a handle for the popped key is created. -/
  | get (s : QSys) (k : String) (h : s.state.waiting.getLast? = some k) :
      QStep s ⟨{ s.state with waiting := s.state.waiting.dropLast,
                              processing := k :: s.state.processing },
               k :: s.handles⟩
  /-- `Complete` through an outstanding handle for `k`, consuming it. -/
  | complete (s : QSys) (k : String) (h : k ∈ s.handles) :
      QStep s ⟨workComplete s.state k, s.handles.erase k⟩
  /-- `Resubmit` through an outstanding handle for `k`, consuming it
  (this is also `Get`'s internal resubmit on a payload error, which consumes
  the handle it just created before returning the error). -/
  | resubmit (s : QSys) (k : String) (h : k ∈ s.handles) :
      QStep s ⟨workResubmit s.state k, s.handles.erase k⟩

/-- Reachability from the empty queue under `Submit`/`Get`/`Complete`/
`Resubmit` sequences. -/
inductive QReach : QSys → Prop where
  | init : QReach QSys.init
  | step {s s' : QSys} : QReach s → QStep s s' → QReach s'

/-! ## Channel model of `Unlock` after a heartbeat error (C10)

`Lock.errors`, `Lock.stop` and `Lock.stopped` are all buffered channels of
capacity one (lock.go lines 33-35).  After `heartbeat` hits a store error it
executes `l.errors <- err; return` (lines 80-81) — it never sends on
`stopped`.  `Unlock` (lines 94-98) then runs `l.stop <- true` followed by
`<-l.stopped`, and only after that does the deferred `l.lock.Unlock()`
release the guard. -/

/-- Program counter of the `Unlock` caller. -/
inductive UnlockPc where
  | start
  | awaitingStopped
  | done
  deriving DecidableEq, Repr

/-- State of the lock handle's channels and tasks after acquisition:
each channel buffer is a list of at most one element. -/
structure ChanSys where
  errorsBuf : List String
  stopBuf : List Bool
  stoppedBuf : List Bool
  hbAlive : Bool
  unlockPc : UnlockPc
  guardHeld : Bool
  deriving DecidableEq, Repr

/-- Atomic events of the heartbeat task and the `Unlock` caller. -/
inductive ChanStep : ChanSys → ChanSys → Prop where
  /-- Heartbeat renewal succeeded and no stop was pending: loop again. -/
  | hbLoop (s : ChanSys) (h : s.hbAlive = true) (h2 : s.stopBuf = []) :
      ChanStep s s
  /-- Heartbeat hit a store error: send it on the one-slot `errors` channel
  and return, never touching `stopped`. -/
  | hbError (s : ChanSys) (e : String) (h : s.hbAlive = true)
      (h2 : s.errorsBuf = []) :
      ChanStep s { s with errorsBuf := [e], hbAlive := false }
  /-- Heartbeat received from `stop` and acknowledged on `stopped`, then
  returned. -/
  | hbAck (s : ChanSys) (b : Bool) (rest : List Bool)
      (h : s.hbAlive = true) (h2 : s.stopBuf = b :: rest)
      (h3 : s.stoppedBuf = []) :
      ChanStep s { s with stopBuf := rest, stoppedBuf := [true],
                          hbAlive := false }
  /-- `Unlock` line `l.stop <- true`: buffers on the one-slot `stop`
  channel. -/
  | unlockSendStop (s : ChanSys) (h : s.unlockPc = .start)
      (h2 : s.stopBuf = []) :
      ChanStep s { s with stopBuf := [true], unlockPc := .awaitingStopped }
  /-- `Unlock` line `<-l.stopped`: can only fire when a value is buffered on
  `stopped`; then the deferred `l.lock.Unlock()` releases the guard. -/
  | unlockRecvStopped (s : ChanSys) (b : Bool) (rest : List Bool)
      (h : s.unlockPc = .awaitingStopped) (h2 : s.stoppedBuf = b :: rest) :
      ChanStep s { s with stoppedBuf := rest, unlockPc := .done,
                          guardHeld := false }

/-- Reachability in the channel system. -/
inductive ChanReach : ChanSys → ChanSys → Prop where
  | refl (s : ChanSys) : ChanReach s s
  | step {s s' s'' : ChanSys} :
      ChanReach s s' → ChanStep s' s'' → ChanReach s s''

/-- The configuration right after the heartbeat died on a store error `e`
that nobody drained, with `Unlock` about to run and the guard held. -/
def deadHbCfg (e : String) : ChanSys :=
  ⟨[e], [], [], false, .start, true⟩

/-! ## Inductive invariants used in the proofs -/

/-- Invariant of the lock system: either nobody observes a successful
unexpired acquisition, or exactly one process does and the key is the one
its `SET NX` created. -/
def LockInv (s : LockSys) : Prop :=
  s.holders = [] ∨ ∃ p, s.holders = [p] ∧ s.owner = some p

/-- Invariant of the queue system: every dedup key occurs at most once
across the waiting and processing lists together; the dedup index holds a
key exactly when the key is on one of the two lists; every outstanding
handle's key is in the processing list; and outstanding handles have
pairwise distinct keys. -/
def QInv (s : QSys) : Prop :=
  (∀ k, s.state.waiting.count k + s.state.processing.count k ≤ 1) ∧
  (∀ k, isQueuedState s.state k = true ↔
    (k ∈ s.state.waiting ∨ k ∈ s.state.processing)) ∧
  (∀ k, k ∈ s.handles → k ∈ s.state.processing) ∧
  s.handles.Nodup

/-! ## Helper lemmas about the hash and list primitives -/

theorem hexists_true_iff (h : RHash) (k : String) :
    hexists h k = true ↔ ∃ kv ∈ h, kv.1 = k := by
  simp [hexists, List.any_eq_true]

theorem hexists_hset_true_iff (h : RHash) (k v j : String) :
    hexists (hset h k v) j = true ↔ (j = k ∨ hexists h j = true) := by
  simp only [hexists, hset, List.any_eq_true, List.mem_cons, List.mem_filter,
    decide_eq_true_eq]
  constructor
  · rintro ⟨x, hx, rfl⟩
    rcases hx with rfl | ⟨hm, _⟩
    · exact Or.inl rfl
    · exact Or.inr ⟨x, hm, rfl⟩
  · rintro (rfl | ⟨x, hm, hj⟩)
    · exact ⟨(j, v), Or.inl rfl, rfl⟩
    · by_cases hxk : x.1 = k
      · exact ⟨(k, v), Or.inl rfl, by rw [← hj, hxk]⟩
      · exact ⟨x, Or.inr ⟨hm, hxk⟩, hj⟩

theorem hexists_hdel_true_iff (h : RHash) (k j : String) :
    hexists (hdel h k) j = true ↔ (hexists h j = true ∧ j ≠ k) := by
  simp only [hexists, hdel, List.any_eq_true, List.mem_filter,
    decide_eq_true_eq]
  constructor
  · rintro ⟨x, ⟨hm, hne⟩, rfl⟩
    exact ⟨⟨x, hm, rfl⟩, hne⟩
  · rintro ⟨⟨x, hm, hj⟩, hne⟩
    exact ⟨x, ⟨hm, by rw [hj]; exact hne⟩, hj⟩

theorem mem_lrem_iff (l : List String) (k j : String) :
    j ∈ lrem l k ↔ (j ∈ l ∧ j ≠ k) := by
  simp [lrem, List.mem_filter]

theorem count_lrem_self (l : List String) (k : String) :
    (lrem l k).count k = 0 := by
  rw [List.count_eq_zero]
  intro hmem
  exact ((mem_lrem_iff l k k).mp hmem).2 rfl

theorem count_lrem_ne (l : List String) (k j : String) (hj : j ≠ k) :
    (lrem l k).count j = l.count j :=
  List.count_filter (by simpa using hj)

/-! ## C3: Submit's error conflation (code bug) -/

/-- C3: the claim states that `Submit` returns `ErrAlreadyQueued` exactly
when the dedup key is already in the index, and that a store error during
the `IsQueued` check (or a marshal error) is surfaced as that error.  The
code (lock.go line 278-280: `if queued, err := c.IsQueued(job);
err != nil || queued { return ErrAlreadyQueued }`) instead returns
`ErrAlreadyQueued` on those errors too.  Evaluated at the failing inputs:
a store error `"connection reset"` during `HEXISTS` on an empty queue (the
key is NOT queued), and a marshal failure, both yield `alreadyQueued` with
no mutation, where the claim requires the underlying error. -/
theorem c3_submit_conflates_errors_with_already_queued :
    submitGo QState.empty ⟨.ok "job1", none⟩ (.storeErr "connection reset")
        none = (.alreadyQueued, QState.empty, false) ∧
    isQueuedState QState.empty "job1" = false ∧
    submitGo QState.empty ⟨.error "json: unsupported type", none⟩
        (.reply false) none = (.alreadyQueued, QState.empty, false) ∧
    isQueuedGo ⟨.ok "job1", none⟩ (.storeErr "connection reset") =
      .error "connection reset" :=
  ⟨rfl, rfl, rfl, rfl⟩

/-! ## C4: key/payload swap in `jobQueueMarshal` (code bug) -/

/-- C4: the claim (and the `JobQueueKeyer` doc comment, lock.go line 208)
states that when a job implements the custom key capability, the dedup key
is the custom-derived bytes and the stored payload is the serialized job.
The code (lock.go lines 357-360) sets `key = payload` and then overwrites
`payload` — not `key` — with `JobQueueKey()`.  Evaluated at a job whose
serialization is `"serializedjob"` and whose `JobQueueKey()` is
`"customkey"`: the key comes out as the serialized bytes and the payload as
the custom key, the exact opposite of the claim. -/
theorem c4_marshal_swaps_key_and_payload :
    jobQueueMarshal ⟨.ok "serializedjob", some "customkey"⟩ =
      .ok ("serializedjob", "customkey") ∧
    jobQueueMarshal ⟨.ok "serializedjob", none⟩ =
      .ok ("serializedjob", "serializedjob") ∧
    "serializedjob" ≠ "customkey" :=
  ⟨rfl, rfl, by decide⟩

/-! ## C7: `Cleanup` drains processing back to waiting -/

theorem cleanupGo_spec (s : QState) :
    cleanupGo s = ⟨s.processing ++ s.waiting, [], s.index⟩ := by
  induction s using cleanupGo.induct with
  | case1 s h =>
    have hp : s.processing = [] := by
      cases hq : s.processing with
      | nil => rfl
      | cons a t =>
        rw [hq] at h
        simp at h
    rw [cleanupGo.eq_def]
    split
    · cases s
      simp_all
    · rename_i k hk
      rw [h] at hk
      cases hk
  | case2 s k h ih =>
    rw [cleanupGo.eq_def]
    split
    · rename_i hk
      rw [h] at hk
      cases hk
    · rename_i k' hk'
      rw [h] at hk'
      cases hk'
      rw [ih]
      have hdl : s.processing.dropLast ++ [k] = s.processing :=
        List.dropLast_append_getLast? k h
      simp only [QState.mk.injEq, and_true]
      conv_rhs => rw [← hdl]
      simp

/-- C7: `Cleanup` moves the tail of the processing list to the head of the
waiting list, one atomic `RPOPLPUSH` at a time, until processing is empty:
the result is `waiting := processing ++ waiting`, `processing := []`, index
untouched; on an empty processing list it is a no-op returning success; any
job `J` that was stuck in processing (its consumer stopped after `Get`
without `Complete`/`Resubmit`) is back in waiting, and a later `Get` can pop
`J` again (shown for the state where `J` is the only outstanding job). -/
theorem c7_cleanup_drains_processing_to_waiting :
    ∀ (s : QState) (J d : String) (um : String → Except String Unit),
    cleanupGo s = ⟨s.processing ++ s.waiting, [], s.index⟩ ∧
    (s.processing = [] → cleanupGo s = s) ∧
    (J ∈ s.processing → J ∈ (cleanupGo s).waiting) ∧
    (s.processing = [J] → s.waiting = [] → hget s.index J = some d →
      um d = .ok () →
      getGo (cleanupGo s) um none = (⟨[], [J], s.index⟩, .gotWork J)) := by
  intro s J d um
  refine ⟨cleanupGo_spec s, ?_, ?_, ?_⟩
  · intro hp
    cases s with
    | mk w pr i =>
      simp only at hp
      rw [cleanupGo_spec ⟨w, pr, i⟩, hp]
      simp
  · intro hJ
    rw [cleanupGo_spec s]
    simp [hJ]
  · intro hp hw hg hum
    rw [cleanupGo_spec s, hp, hw]
    simp only [List.append_nil]
    unfold getGo
    simp [hg, hum]

/-- Witness for C7 at a concrete queue: one job `"J"` abandoned in
processing with payload `"p"`. -/
theorem c7_witness :
    cleanupGo ⟨[], ["J"], [("J", "p")]⟩ = ⟨["J"], [], [("J", "p")]⟩ ∧
    getGo (cleanupGo ⟨[], ["J"], [("J", "p")]⟩) (fun _ => Except.ok ())
      none = (⟨[], ["J"], [("J", "p")]⟩, .gotWork "J") := by
  have h := c7_cleanup_drains_processing_to_waiting ⟨[], ["J"], [("J", "p")]⟩
    "J" "p" (fun _ => Except.ok ())
  exact ⟨h.1, h.2.2.2 rfl rfl rfl rfl⟩

/-! ## C9: `Resubmit` leaves the dedup index untouched -/

/-- C9: `Work.Resubmit` atomically removes the key from the processing list
and pushes it onto the head of the waiting list; the `Queue:payload` dedup
index is unchanged, so `IsQueued` answers exactly as before, and a
concurrent `Submit` of the same job (whose `HEXISTS` check sees the
unchanged index) is still rejected as `ErrAlreadyQueued` with no
mutation. -/
theorem c9_resubmit_leaves_index_untouched :
    ∀ (s : QState) (k : String) (job : Job) (p : String) (ef : Option String),
    (workResubmit s k).index = s.index ∧
    (∀ j, isQueuedState (workResubmit s k) j = isQueuedState s j) ∧
    (workResubmit s k).processing = lrem s.processing k ∧
    k ∉ (workResubmit s k).processing ∧
    (workResubmit s k).waiting = k :: s.waiting ∧
    (jobQueueMarshal job = .ok (k, p) → isQueuedState s k = true →
      submitGo (workResubmit s k) job
        (.reply (isQueuedState (workResubmit s k) k)) ef =
        (.alreadyQueued, workResubmit s k, false)) := by
  intro s k job p ef
  refine ⟨rfl, fun j => rfl, rfl, ?_, rfl, ?_⟩
  · intro hmem
    exact ((mem_lrem_iff s.processing k k).mp hmem).2 rfl
  · intro hm hq
    have hb : isQueuedState (workResubmit s k) k = true := hq
    simp [submitGo, isQueuedGo, hm, hb]

/-- Witness for C9 at a concrete queue: job `"k"` is in processing with its
index entry, gets resubmitted, and a concurrent submit is rejected. -/
theorem c9_witness :
    (workResubmit ⟨[], ["k"], [("k", "pay")]⟩ "k").index = [("k", "pay")] ∧
    submitGo (workResubmit ⟨[], ["k"], [("k", "pay")]⟩ "k")
      ⟨.ok "k", none⟩
      (.reply (isQueuedState (workResubmit ⟨[], ["k"], [("k", "pay")]⟩ "k")
        "k")) none =
      (.alreadyQueued, workResubmit ⟨[], ["k"], [("k", "pay")]⟩ "k", false) := by
  have h := c9_resubmit_leaves_index_untouched ⟨[], ["k"], [("k", "pay")]⟩
    "k" ⟨.ok "k", none⟩ "k" none
  exact ⟨h.1, h.2.2.2.2.2 rfl rfl⟩

/-! ## C5: `Get` compensates payload errors with an internal resubmit -/

/-- C5: when the popped job's payload lookup (`HGET` returning a nil reply,
which `redis.Bytes` turns into an error) or deserialization fails, `Get`
itself resubmits the job — atomically `LREM`-ing the key out of processing
and `LPUSH`-ing it back onto waiting — and returns the error instead of a
handle; if that internal resubmit fails, the process dies by `panic`
(a loud, fatal signal), not by an ordinary error return. -/
theorem c5_get_resubmits_on_payload_error :
    ∀ (s : QState) (um : String → Except String Unit) (k d e re : String),
    s.waiting.getLast? = some k →
    (hget s.index k = none →
      getGo s um none =
        (workResubmit ⟨s.waiting.dropLast, k :: s.processing, s.index⟩ k,
          .deserErr "redigo: nil returned") ∧
      getGo s um (some re) =
        (⟨s.waiting.dropLast, k :: s.processing, s.index⟩,
          .fatalPanicked ("could not resubmit job: " ++ re))) ∧
    (hget s.index k = some d → um d = .error e →
      getGo s um none =
        (workResubmit ⟨s.waiting.dropLast, k :: s.processing, s.index⟩ k,
          .deserErr e) ∧
      getGo s um (some re) =
        (⟨s.waiting.dropLast, k :: s.processing, s.index⟩,
          .fatalPanicked ("could not resubmit job: " ++ re))) ∧
    (workResubmit ⟨s.waiting.dropLast, k :: s.processing, s.index⟩ k).waiting
        = k :: s.waiting.dropLast ∧
    k ∉ (workResubmit ⟨s.waiting.dropLast, k :: s.processing,
          s.index⟩ k).processing := by
  intro s um k d e re hlast
  refine ⟨?_, ?_, rfl, ?_⟩
  · intro h0
    unfold getGo
    rw [hlast]
    simp [h0]
  · intro hd hum
    unfold getGo
    rw [hlast]
    simp [hd, hum]
  · intro hmem
    exact ((mem_lrem_iff (k :: s.processing) k k).mp hmem).2 rfl

/-- Witness for C5 at a concrete queue: job `"k"` with unparseable payload
`"oops"`; with a healthy store the queue resubmits and reports the
deserialization error, and with a failing resubmit it panics. -/
theorem c5_witness :
    getGo ⟨["k"], [], [("k", "oops")]⟩ (fun _ => Except.error "bad json")
      none = (⟨["k"], [], [("k", "oops")]⟩, .deserErr "bad json") ∧
    getGo ⟨["k"], [], [("k", "oops")]⟩ (fun _ => Except.error "bad json")
      (some "conn reset") =
      (⟨[], ["k"], [("k", "oops")]⟩,
        .fatalPanicked "could not resubmit job: conn reset") := by
  have h := c5_get_resubmits_on_payload_error ⟨["k"], [], [("k", "oops")]⟩
    (fun _ => Except.error "bad json") "k" "oops" "bad json" "conn reset" rfl
  have h2 := h.2.1 rfl rfl
  exact ⟨h2.1, h2.2⟩

/-! ## C8: `LockWait` under a continuously held key -/

theorem lockWaitLoop_all_held (e d : Nat) (he : 0 < e) :
    ∀ (resps : List NxReply) (t0 : Nat), resps ≠ [] →
    (∀ r ∈ resps, r = NxReply.heldByOther) →
    d < t0 + e * resps.length →
    (lockWaitLoop e d resps t0).outcome = .timeout ∧
    (lockWaitLoop e d resps t0).guardHeld = false ∧
    (lockWaitLoop e d resps t0).attemptTimes.head? = some t0 ∧
    (lockWaitLoop e d resps t0).attemptTimes.Chain'
      (fun a b => b = a + e) := by
  intro resps
  induction resps with
  | nil => intro t0 hne; exact absurd rfl hne
  | cons r rest ih =>
    intro t0 _ hall hd
    have hr : r = NxReply.heldByOther := hall r (List.mem_cons_self r rest)
    subst hr
    by_cases hto : d < t0 + e
    · simp [lockWaitLoop, hto]
    · have hle : t0 + e ≤ d := Nat.le_of_not_lt hto
      have hrest : rest ≠ [] := by
        intro hnil
        rw [hnil] at hd
        simp at hd
        omega
      have hd' : d < (t0 + e) + e * rest.length := by
        simp only [List.length_cons] at hd
        have : e * (rest.length + 1) = e * rest.length + e := by ring
        omega
      have hih := ih (t0 + e) hrest
        (fun x hx => hall x (List.mem_cons_of_mem _ hx)) hd'
      have heval : lockWaitLoop e d (NxReply.heldByOther :: rest) t0 =
          ⟨(lockWaitLoop e d rest (t0 + e)).outcome,
           (lockWaitLoop e d rest (t0 + e)).guardHeld,
           t0 :: (lockWaitLoop e d rest (t0 + e)).attemptTimes⟩ := by
        simp [lockWaitLoop, hto]
      rw [heval]
      refine ⟨hih.1, hih.2.1, rfl, ?_⟩
      rw [List.chain'_cons']
      refine ⟨?_, hih.2.2.2⟩
      intro y hy
      rw [hih.2.2.1] at hy
      cases hy
      rfl

/-- C8: with the lock key continuously held by another holder (every
`SET NX` attempt gets a nil reply), `LockWait wait` makes its attempts
exactly one full lease duration apart (it sleeps `l.Expiry` between them),
re-checks the deadline `t0 + wait` after each sleep, and once the deadline
has passed releases the local guard and returns `ErrLockTimeout` — not a
store error; and a store error on any attempt aborts immediately with that
error, the guard released. -/
theorem c8_lockwait_timeout_under_contention :
    (∀ (e w t0 : Nat) (resps : List NxReply), 0 < e → resps ≠ [] →
      (∀ r ∈ resps, r = NxReply.heldByOther) → w < e * resps.length →
      (lockWait e w resps t0).outcome = .timeout ∧
      (lockWait e w resps t0).guardHeld = false ∧
      (lockWait e w resps t0).attemptTimes.head? = some t0 ∧
      (lockWait e w resps t0).attemptTimes.Chain' (fun a b => b = a + e)) ∧
    (∀ (e w t0 : Nat) (err : String) (rest : List NxReply),
      lockWait e w (.storeErr err :: rest) t0 =
        ⟨.storeErr err, false, [t0]⟩) ∧
    (∀ (e w t0 : Nat) (rest : List NxReply),
      lockWait e w (.acquired :: rest) t0 = ⟨.ok, true, [t0]⟩) := by
  refine ⟨?_, fun e w t0 err rest => rfl, fun e w t0 rest => rfl⟩
  intro e w t0 resps he hne hall hw
  exact lockWaitLoop_all_held e (t0 + w) he resps t0 hne hall
    (by omega)

/-- Witness for C8: a 2ms lease, 3ms wait, both attempts denied — timeout
with the guard released; and a store error aborts at once. -/
theorem c8_witness :
    (lockWait 2 3 [.heldByOther, .heldByOther] 0).outcome = .timeout ∧
    (lockWait 2 3 [.heldByOther, .heldByOther] 0).guardHeld = false ∧
    lockWait 2 3 [.storeErr "conn refused"] 0 =
      ⟨.storeErr "conn refused", false, [0]⟩ := by
  have h := c8_lockwait_timeout_under_contention
  have h1 := h.1 2 3 0 [.heldByOther, .heldByOther] (by decide) (by decide)
    (by decide) (by decide)
  exact ⟨h1.1, h1.2.1, h.2.1 2 3 0 "conn refused" []⟩

/-! ## C6: the heartbeat only stops on a store error (corrected claim) -/

/-- C6 counterexample: the claim states the renewal task stops and signals
"defensively when the key has expired and been deleted".  But `SET key 1 XX`
on a missing key yields a nil reply with a nil error (redigo reports no
error for a nil bulk reply), and `heartbeat` checks only `err != nil`
(lock.go line 79): at that concrete input the task neither stops nor
signals, contradicting the claim. -/
theorem c6_counterexample_nil_reply_keeps_running :
    heartbeatTick XxReply.nilReply = ⟨false, none⟩ ∧
    (heartbeatTick XxReply.nilReply).stops = false :=
  ⟨rfl, rfl⟩

/-- C6 amended: while the lock is held the renewal task runs on a period of
one quarter of the lease duration, each iteration issuing the conditional
set-if-key-exists refresh; it stops and signals through the one-slot error
channel exactly when that command returns a store error — a nil reply (the
key having expired and been deleted) is NOT treated as a failure and the
task keeps running. -/
theorem c6_heartbeat_stops_only_on_store_error :
    (∀ e, heartbeatTick (.storeErr e) = ⟨true, some e⟩) ∧
    heartbeatTick .ok = ⟨false, none⟩ ∧
    heartbeatTick .nilReply = ⟨false, none⟩ ∧
    (∀ r, (heartbeatTick r).stops = true ↔ ∃ e, r = .storeErr e) ∧
    (∀ n, heartbeatPeriod n = n / 4) := by
  refine ⟨fun e => rfl, rfl, rfl, ?_, fun n => rfl⟩
  intro r
  cases r with
  | ok => simp [heartbeatTick]
  | nilReply => simp [heartbeatTick]
  | storeErr e => simp [heartbeatTick]

/-! ## C1: mutual exclusion of concurrent acquisitions -/

theorem lockInv_step {s s' : LockSys} (hs : LockInv s)
    (hstep : LockStep s s') : LockInv s' := by
  cases hstep with
  | acquire p howner =>
    have hempty : s.holders = [] := by
      rcases hs with h | ⟨q, _, hq⟩
      · exact h
      · rw [howner] at hq
        cases hq
    right
    exact ⟨p, by rw [hempty], rfl⟩
  | acquireFail q h => exact hs
  | renew q h => exact hs
  | unlock p hmem =>
    rcases hs with h | ⟨q, hq, hqo⟩
    · rw [h] at hmem
      cases hmem
    · left
      rw [hq] at hmem ⊢
      cases hmem with
      | head => simp
      | tail _ htl => cases htl
  | expire q howner =>
    rcases hs with h | ⟨p, hp, hpo⟩
    · left
      simp [h]
    · left
      rw [howner] at hpo
      cases hpo
      simp [hp]

theorem lockInv_reach {s : LockSys} (h : LockReach s) : LockInv s := by
  induction h with
  | init => exact Or.inl rfl
  | step _ hstep ih => exact lockInv_step ih hstep

/-- C1: in every state reachable by any interleaving of `SET NX`
acquisitions, `SET XX` renewals, `Unlock`s and TTL expiries of one lock
key, at most one process observes a successful acquisition that has been
neither released by its `Unlock` nor expired by the store. -/
theorem c1_mutual_exclusion :
    ∀ (s : LockSys), LockReach s →
    ∀ p q, p ∈ s.holders → q ∈ s.holders → p = q := by
  intro s hreach p q hp hq
  rcases lockInv_reach hreach with h | ⟨r, hr, _⟩
  · rw [h] at hp
    cases hp
  · rw [hr] at hp hq
    cases hp with
    | head =>
      cases hq with
      | head => rfl
      | tail _ htl => cases htl
    | tail _ htl => cases htl

/-- Witness for C1 at the concrete state reached by process 7 acquiring the
free lock: its holder list is `[7]`, and the theorem applies. -/
theorem c1_witness :
    (7 : Nat) ∈ (⟨some 7, [7]⟩ : LockSys).holders ∧
    ∀ q, q ∈ (⟨some 7, [7]⟩ : LockSys).holders → 7 = q := by
  have hreach : LockReach ⟨some 7, [7]⟩ :=
    LockReach.step LockReach.init (LockStep.acquire LockSys.init 7 rfl)
  exact ⟨List.mem_singleton.mpr rfl,
    fun q hq => c1_mutual_exclusion ⟨some 7, [7]⟩ hreach 7 q
      (List.mem_singleton.mpr rfl) hq⟩

/-! ## C2: queue conservation -/

theorem qInv_step {s s' : QSys} (hs : QInv s) (hstep : QStep s s') :
    QInv s' := by
  obtain ⟨hcount, hiff, hhand, hnd⟩ := hs
  cases hstep with
  | submit k p hnq =>
    have hknw : k ∉ s.state.waiting := fun hmem => by
      have h := (hiff k).mpr (Or.inl hmem)
      rw [hnq] at h
      cases h
    have hknp : k ∉ s.state.processing := fun hmem => by
      have h := (hiff k).mpr (Or.inr hmem)
      rw [hnq] at h
      cases h
    refine ⟨?_, ?_, fun j hj => hhand j hj, hnd⟩
    · intro j
      dsimp only
      by_cases hjk : j = k
      · subst hjk
        rw [List.count_cons_self, List.count_eq_zero.mpr hknw,
          List.count_eq_zero.mpr hknp]
      · rw [List.count_cons_of_ne hjk]
        exact hcount j
    · intro j
      dsimp only [isQueuedState]
      rw [hexists_hset_true_iff, List.mem_cons]
      constructor
      · rintro (rfl | hq)
        · exact Or.inl (Or.inl rfl)
        · rcases (hiff j).mp hq with hw | hp
          · exact Or.inl (Or.inr hw)
          · exact Or.inr hp
      · rintro ((rfl | hw) | hp)
        · exact Or.inl rfl
        · exact Or.inr ((hiff j).mpr (Or.inl hw))
        · exact Or.inr ((hiff j).mpr (Or.inr hp))
  | submitDup k hq => exact ⟨hcount, hiff, hhand, hnd⟩
  | get k hlast =>
    have hdl : s.state.waiting.dropLast ++ [k] = s.state.waiting :=
      List.dropLast_append_getLast? k hlast
    have hkw : k ∈ s.state.waiting := by
      rw [← hdl]
      simp
    have hwpos : 0 < s.state.waiting.count k := List.count_pos_iff.mpr hkw
    have hp0 : s.state.processing.count k = 0 := by
      have := hcount k
      omega
    have hknp : k ∉ s.state.processing := List.count_eq_zero.mp hp0
    have hwdl : s.state.waiting.count k =
        s.state.waiting.dropLast.count k + 1 := by
      conv_lhs => rw [← hdl]
      rw [List.count_append]
      simp
    have hdl0 : s.state.waiting.dropLast.count k = 0 := by
      have := hcount k
      omega
    refine ⟨?_, ?_, ?_, ?_⟩
    · intro j
      dsimp only
      by_cases hjk : j = k
      · subst hjk
        rw [hdl0, List.count_cons_self, hp0]
      · have hcw : s.state.waiting.count j =
            s.state.waiting.dropLast.count j := by
          conv_lhs => rw [← hdl]
          rw [List.count_append, List.count_singleton']
          simp [Ne.symm hjk]
        rw [List.count_cons_of_ne hjk, ← hcw]
        exact hcount j
    · intro j
      dsimp only [isQueuedState]
      rw [List.mem_cons]
      by_cases hjk : j = k
      · subst hjk
        constructor
        · intro _
          exact Or.inr (Or.inl rfl)
        · intro _
          exact (hiff j).mpr (Or.inl hkw)
      · have hmw : j ∈ s.state.waiting.dropLast ↔ j ∈ s.state.waiting := by
          conv_rhs => rw [← hdl]
          simp [hjk]
        rw [hmw]
        constructor
        · intro hq
          rcases (hiff j).mp hq with hw | hp
          · exact Or.inl hw
          · exact Or.inr (Or.inr hp)
        · rintro (hw | (rfl | hp))
          · exact (hiff j).mpr (Or.inl hw)
          · exact absurd rfl hjk
          · exact (hiff j).mpr (Or.inr hp)
    · intro j hj
      dsimp only at hj ⊢
      rcases List.mem_cons.mp hj with rfl | hjh
      · exact List.mem_cons_self _ _
      · exact List.mem_cons_of_mem _ (hhand j hjh)
    · dsimp only
      refine List.Nodup.cons (fun hkh => hknp (hhand k hkh)) hnd
  | complete k hk =>
    have hkp : k ∈ s.state.processing := hhand k hk
    have hppos : 0 < s.state.processing.count k := List.count_pos_iff.mpr hkp
    have hw0 : s.state.waiting.count k = 0 := by
      have := hcount k
      omega
    have hknw : k ∉ s.state.waiting := List.count_eq_zero.mp hw0
    refine ⟨?_, ?_, ?_, ?_⟩
    · intro j
      dsimp only [workComplete]
      by_cases hjk : j = k
      · subst hjk
        rw [hw0, count_lrem_self]
        omega
      · rw [count_lrem_ne _ _ _ hjk]
        exact hcount j
    · intro j
      dsimp only [workComplete, isQueuedState]
      by_cases hjk : j = k
      · subst hjk
        constructor
        · intro hq
          rw [hexists_hdel_true_iff] at hq
          exact absurd rfl hq.2
        · rintro (hw | hp)
          · exact absurd hw hknw
          · rcases (mem_lrem_iff _ _ _).mp hp with ⟨_, hne⟩
            exact absurd rfl hne
      · rw [hexists_hdel_true_iff]
        constructor
        · rintro ⟨hq, _⟩
          rcases (hiff j).mp hq with hw | hp
          · exact Or.inl hw
          · exact Or.inr ((mem_lrem_iff _ _ _).mpr ⟨hp, hjk⟩)
        · rintro (hw | hp)
          · exact ⟨(hiff j).mpr (Or.inl hw), hjk⟩
          · exact ⟨(hiff j).mpr
              (Or.inr ((mem_lrem_iff _ _ _).mp hp).1), hjk⟩
    · intro j hj
      dsimp only [workComplete] at hj ⊢
      rcases hnd.mem_erase_iff.mp hj with ⟨hne, hjh⟩
      exact (mem_lrem_iff _ _ _).mpr ⟨hhand j hjh, hne⟩
    · exact hnd.erase k
  | resubmit k hk =>
    have hkp : k ∈ s.state.processing := hhand k hk
    have hppos : 0 < s.state.processing.count k := List.count_pos_iff.mpr hkp
    have hw0 : s.state.waiting.count k = 0 := by
      have := hcount k
      omega
    refine ⟨?_, ?_, ?_, ?_⟩
    · intro j
      dsimp only [workResubmit]
      by_cases hjk : j = k
      · subst hjk
        rw [List.count_cons_self, hw0, count_lrem_self]
      · rw [List.count_cons_of_ne hjk, count_lrem_ne _ _ _ hjk]
        exact hcount j
    · intro j
      dsimp only [workResubmit, isQueuedState]
      rw [List.mem_cons]
      by_cases hjk : j = k
      · subst hjk
        constructor
        · intro _
          exact Or.inl (Or.inl rfl)
        · intro _
          exact (hiff j).mpr (Or.inr hkp)
      · constructor
        · intro hq
          rcases (hiff j).mp hq with hw | hp
          · exact Or.inl (Or.inr hw)
          · exact Or.inr ((mem_lrem_iff _ _ _).mpr ⟨hp, hjk⟩)
        · rintro ((rfl | hw) | hp)
          · exact absurd rfl hjk
          · exact (hiff j).mpr (Or.inl hw)
          · exact (hiff j).mpr
              (Or.inr ((mem_lrem_iff _ _ _).mp hp).1)
    · intro j hj
      dsimp only [workResubmit] at hj ⊢
      rcases hnd.mem_erase_iff.mp hj with ⟨hne, hjh⟩
      exact (mem_lrem_iff _ _ _).mpr ⟨hhand j hjh, hne⟩
    · exact hnd.erase k

theorem qInv_reach {s : QSys} (h : QReach s) : QInv s := by
  induction h with
  | init =>
    refine ⟨?_, ?_, ?_, ?_⟩ <;>
      simp [QSys.init, QState.empty, isQueuedState, hexists]
  | step _ hstep ih => exact qInv_step ih hstep

/-- C2: under every sequence of `Submit`/`Get`/`Complete`/`Resubmit`
operations — each issued as the single atomic batch the code sends, so these
states are exactly the observable ones — a dedup key occurs at most once
across the waiting and processing lists together (hence never in both at
once), and it is in the dedup index (outstanding) exactly when it is on one
of the two lists — never in neither while outstanding. -/
theorem c2_queue_conservation :
    ∀ (s : QSys), QReach s → ∀ k,
    s.state.waiting.count k + s.state.processing.count k ≤ 1 ∧
    (isQueuedState s.state k = true ↔
      (k ∈ s.state.waiting ∨ k ∈ s.state.processing)) ∧
    ¬(k ∈ s.state.waiting ∧ k ∈ s.state.processing) := by
  intro s h k
  obtain ⟨hcount, hiff, _, _⟩ := qInv_reach h
  refine ⟨hcount k, hiff k, ?_⟩
  rintro ⟨hw, hp⟩
  have h1 := List.count_pos_iff.mpr hw
  have h2 := List.count_pos_iff.mpr hp
  have := hcount k
  omega

/-- Witness for C2 at the initial (empty) queue, which is reachable. -/
theorem c2_witness :
    QSys.init.state.waiting.count "j" +
      QSys.init.state.processing.count "j" ≤ 1 ∧
    (isQueuedState QSys.init.state "j" = true ↔
      ("j" ∈ QSys.init.state.waiting ∨ "j" ∈ QSys.init.state.processing)) ∧
    ¬("j" ∈ QSys.init.state.waiting ∧ "j" ∈ QSys.init.state.processing) :=
  c2_queue_conservation QSys.init QReach.init "j"

/-! ## C10: `Unlock` after a heartbeat store error never returns -/

theorem chanInv_step {s s' : ChanSys}
    (hinv : s.stoppedBuf = [] ∧ s.unlockPc ≠ .done ∧ s.guardHeld = true ∧
      s.hbAlive = false)
    (hstep : ChanStep s s') :
    s'.stoppedBuf = [] ∧ s'.unlockPc ≠ .done ∧ s'.guardHeld = true ∧
      s'.hbAlive = false := by
  obtain ⟨hstopped, hpc, hguard, halive⟩ := hinv
  cases hstep with
  | hbLoop h h2 =>
    rw [halive] at h
    cases h
  | hbError e h h2 =>
    rw [halive] at h
    cases h
  | hbAck b rest h h2 h3 =>
    rw [halive] at h
    cases h
  | unlockSendStop h h2 =>
    exact ⟨hstopped, by simp, hguard, halive⟩
  | unlockRecvStopped b rest h h2 =>
    rw [hstopped] at h2
    cases h2

/-- C10: after the heartbeat has terminated by sending a store error on the
one-slot `errors` channel (nobody drained it), a subsequent `Unlock` can
buffer its value on the one-slot `stop` channel, but in every state
reachable from that configuration the `stopped` channel stays empty, the
`Unlock` caller never passes `<-l.stopped` (its program counter never
reaches `done`), and the local guard is never released. -/
theorem c10_unlock_blocks_after_heartbeat_error :
    ∀ (e : String),
    (∃ s', ChanStep (deadHbCfg e) s' ∧ s'.stopBuf = [true] ∧
      s'.unlockPc = .awaitingStopped) ∧
    (∀ s, ChanReach (deadHbCfg e) s →
      s.stoppedBuf = [] ∧ s.unlockPc ≠ .done ∧ s.guardHeld = true) := by
  intro e
  constructor
  · refine ⟨⟨[e], [true], [], false, .awaitingStopped, true⟩, ?_, rfl, rfl⟩
    exact ChanStep.unlockSendStop (deadHbCfg e) rfl rfl
  · intro s hreach
    have hinv : s.stoppedBuf = [] ∧ s.unlockPc ≠ .done ∧
        s.guardHeld = true ∧ s.hbAlive = false := by
      induction hreach with
      | refl => exact ⟨rfl, by simp [deadHbCfg], rfl, rfl⟩
      | step _ hstep ih => exact chanInv_step ih hstep
    exact ⟨hinv.1, hinv.2.1, hinv.2.2.1⟩

/-- Witness for C10 at the dead-heartbeat configuration itself (reachable
by reflexivity): the guard is held and `Unlock` has not completed. -/
theorem c10_witness :
    (deadHbCfg "conn refused").stoppedBuf = [] ∧
    (deadHbCfg "conn refused").unlockPc ≠ .done ∧
    (deadHbCfg "conn refused").guardHeld = true :=
  (c10_unlock_blocks_after_heartbeat_error "conn refused").2
    (deadHbCfg "conn refused") (ChanReach.refl _)

end Grt
